import Mathlib

/-!
# ACM-ICN-2020-SFR demo application: producer, consumer and route shell commands

A shallow embedding of `app/producer.c`, `app/consumer.c` and `app/routes.c`.

Conventions of the embedding

* A byte is a natural number; a C string is the list of its bytes before the
  terminating NUL, so `strlen` is `List.length`.
* `argc`/`argv` is one list of C strings, `argc` being its length.
* `int` results are `Int`; `unsigned` values are `Nat` reduced modulo `2^32`
  where the source converts.
* The CCN-lite engine and the RIOT services are not part of the application:
  their functions and constants are fields of an environment record and every
  call the application makes to them is recorded in an event log.
* A static array is the list of its bytes. The prefix table is followed by
  the bytes of static storage that lie behind it in memory, as far as a
  `strcpy` of `start_producer` reaches, so that a store past the end of the
  table changes the state; every such `strcpy` is also logged with its row and
  its byte count. Which of the other statics these bytes belong to is decided by
  the linker and is not part of the model.
* A write through a `NULL` pointer ends the call without a return value.
* The `printf`/`puts` output and the request counters `reqtx`/`resprx`, which
  no control flow reads, are left out.
-/

namespace SFR

/-! ## C library -/

/-- The bytes of an ASCII string literal. -/
def cstr (s : String) : List Nat := s.toList.map Char.toNat

/-- `strlen`. -/
def strlen (s : List Nat) : Nat := s.length

/-- `isspace` in the C locale. -/
def isspace (c : Nat) : Bool := c == 32 || (9 ≤ c && c ≤ 13)

/-- `isdigit`. -/
def isdigit (c : Nat) : Bool := 48 ≤ c && c ≤ 57

/-- The value of the leading run of decimal digits, continuing from `acc`. -/
def atoi_digits : List Nat → Nat → Nat
  | [], acc => acc
  | c :: cs, acc => if isdigit c then atoi_digits cs (10 * acc + (c - 48)) else acc

def INT_MAX : Int := 2147483647

def INT_MIN : Int := -2147483648

/-- `atoi` as newlib provides it on the 32-bit target, `(int) strtol(s, NULL, 10)`:
leading white space, an optional sign, the leading digits; a value out of range
saturates. -/
def atoi (s : List Nat) : Int :=
  match s.dropWhile isspace with
  | 45 :: r => max INT_MIN (-(atoi_digits r 0 : Int))
  | 43 :: r => min INT_MAX (atoi_digits r 0 : Int)
  | r => min INT_MAX (atoi_digits r 0 : Int)

/-- Conversion of an `int` to `unsigned` (32 bits). -/
def to_unsigned (v : Int) : Nat := (v % 4294967296).toNat

/-- The tokens `strtok(s, "/")`, `strtok(NULL, "/")`, ... return until the first
`NULL`: the maximal runs of bytes other than `/`, in order. `cur` holds the
bytes of the token being read, last byte first. -/
def strtok_aux : List Nat → List Nat → List (List Nat)
  | [], cur => if cur = [] then [] else [cur.reverse]
  | c :: cs, cur =>
    if c = 47 then
      (if cur = [] then strtok_aux cs [] else cur.reverse :: strtok_aux cs [])
    else strtok_aux cs (c :: cur)

/-- All tokens of `s` for the delimiter `/`. -/
def strtok_all (s : List Nat) : List (List Nat) := strtok_aux s []

/-- Byte-wise store of `bytes` into the piece of memory `mem` from offset `off`
on. A byte whose offset lies outside `mem` is not kept (`List.set` leaves the
list as it is there); `start_producer` stores into the prefix table together
with the bytes behind it, which none of its copies leaves (`copy_loop_reach`). -/
def store : List Nat → Nat → List Nat → List Nat
  | mem, _, [] => mem
  | mem, off, b :: bs => store (mem.set off b) (off + 1) bs

/-- `memcpy(&dst[off], src, n)`. -/
def memcpy (dst : List Nat) (off : Nat) (src : List Nat) (n : Nat) : List Nat :=
  store dst off (src.take n)

/-- `memcmp(p, q, n)`: `0` when the first `n` bytes agree, else the sign of the
first difference. `q` is the modelled object from the compared address to its
end; a comparison that runs past the end of either list reads a byte the model
does not know and is reported as a difference. -/
def memcmp : List Nat → List Nat → Nat → Int
  | _, _, 0 => 0
  | a :: p, b :: q, n + 1 => if a = b then memcmp p q n else if a < b then -1 else 1
  | _, _, _ + 1 => 1

/-! ## CCN-lite data the application touches -/

/-- `struct ccnl_prefix_s`: `comp[i]` with `complen[i]` is the `i`-th list,
`compcnt` the number of lists. -/
structure ccnl_prefix_s where
  comp : List (List Nat)
deriving DecidableEq, Repr

def ccnl_prefix_s.compcnt (p : ccnl_prefix_s) : Nat := p.comp.length

def ccnl_prefix_s.complen (p : ccnl_prefix_s) (i : Nat) : Nat := (p.comp.getD i []).length

/-- `struct ccnl_pkt_s`, of which only the name is read here. -/
structure ccnl_pkt_s where
  pfx : ccnl_prefix_s
deriving DecidableEq, Repr

/-- `struct ccnl_content_s`. -/
structure ccnl_content_s where
  pkt : ccnl_pkt_s
deriving DecidableEq, Repr

/-- The constants and functions of CCN-lite used by `producer.c`. -/
structure Ccnl where
  /-- The `CCNL_MAX_PREFIX_SIZE` constant of the engine. -/
  CCNL_MAX_PREFIX_SIZE : Nat
  /-- The `NDN_TLV_Data` constant of the engine. -/
  NDN_TLV_Data : Nat
  /-- The packet `ccnl_ndntlv_prependContent` leaves at `_data_buf + offs`, for
  a name and a payload. -/
  ccnl_ndntlv_prependContent : ccnl_prefix_s → List Nat → List Nat
  /-- The call `ccnl_ndntlv_dehead`: `none` for a non-zero return value, else
  the type read and the bytes after the header. -/
  ccnl_ndntlv_dehead : List Nat → Option (Nat × List Nat)
  /-- The call `ccnl_ndntlv_bytes2pkt(typ, olddata, &data, &reslen)`. -/
  ccnl_ndntlv_bytes2pkt : Nat → List Nat → List Nat → Option ccnl_pkt_s
  /-- The call `ccnl_content_new(&pk)`. A content object holds a packet with a
  name: the code reads `c->pkt->pfx` of a non-`NULL` result without a check. -/
  ccnl_content_new : Option ccnl_pkt_s → Option ccnl_content_s

/-! ## producer.c -/

def CMPCNT : Nat := 3

def CMPLEN : Nat := 10

def SUFFIX_CNT : Nat := 1

def DATA_MAX_SIZE : Nat := 1024

def _data_cnt : List Nat := [0x52, 0x13, 0xf6, 0xb5]

/-- The number of bytes behind `_name_prefix` a `strcpy` of `start_producer`
can reach: the copy with the highest address starts at row `CMPCNT` and writes
at most `CMPLEN` bytes and a NUL. -/
def BEHIND : Nat := CMPLEN + 1

/-- The static variables of `producer.c`. The table
`_name_prefix[CMPCNT][CMPLEN]` is its `CMPCNT * CMPLEN` bytes in row-major
order, row `i` starting at offset `CMPLEN * i`. -/
structure ProducerState where
  _name_prefix : List Nat
  /-- The `BEHIND` bytes of static storage that follow `_name_prefix` in memory.
  They belong to whichever objects the linker has placed there, possibly to the
  statics below; the model does not know which, and keeps the values of the
  statics below apart from these bytes. -/
  behind : List Nat
  _name_prefix_cmpcnt : Nat
  _data : List Nat
  _data_len : Nat
deriving DecidableEq, Repr

/-- The zero-initialised statics at program start. -/
def ProducerState.init : ProducerState :=
  { _name_prefix := List.replicate (CMPCNT * CMPLEN) 0
    behind := List.replicate BEHIND 0
    _name_prefix_cmpcnt := 0
    _data := List.replicate DATA_MAX_SIZE 0
    _data_len := 0 }

/-- The sizes the two arrays are declared with. -/
def ProducerState.sized (s : ProducerState) : Prop :=
  s._name_prefix.length = CMPCNT * CMPLEN ∧ s._data.length = DATA_MAX_SIZE

instance (s : ProducerState) : Decidable s.sized := by
  unfold ProducerState.sized
  infer_instance

/-- What a call in `producer.c` does besides changing the statics. -/
inductive ProducerEvent where
  /-- The call `strcpy((char *)_name_prefix[row], cmp)`, which writes `bytes`
  bytes, the terminating NUL included, from the start of row `row` on. -/
  | strcpy_row (row : Nat) (bytes : Nat)
  /-- The call `ccnl_set_local_producer(_producer_func)`. -/
  | set_local_producer
  /-- The call `ccnl_ndntlv_prependContent(pfx, _data, _data_len, ...)`. -/
  | prependContent (pfx : ccnl_prefix_s) (payload : List Nat)
  /-- The call `ccnl_content_add2cache(relay, c)`. -/
  | add2cache (c : ccnl_content_s)
deriving DecidableEq, Repr

/-- `_cont_and_cache(relay, pkt)`: the content returned (`none` for `NULL`) and
the engine calls made. -/
def _cont_and_cache (env : Ccnl) (st : ProducerState) (pkt : ccnl_pkt_s) :
    Option ccnl_content_s × List ProducerEvent :=
  let payload := st._data.take st._data_len
  let olddata := env.ccnl_ndntlv_prependContent pkt.pfx payload
  let ev := [ProducerEvent.prependContent pkt.pfx payload]
  match env.ccnl_ndntlv_dehead olddata with
  | none => (none, ev)
  | some (typ, data) =>
    if typ ≠ env.NDN_TLV_Data then (none, ev)
    else
      let pk := env.ccnl_ndntlv_bytes2pkt typ olddata data
      match env.ccnl_content_new pk with
      | some c => (some c, ev ++ [ProducerEvent.add2cache c])
      | none => (none, ev)

/-- The contents a log passes to `ccnl_content_add2cache`, in call order. -/
def cache_insertions (log : List ProducerEvent) : List ccnl_content_s :=
  log.filterMap fun e =>
    match e with
    | ProducerEvent.add2cache c => some c
    | _ => none

/-- The loop of `_producer_func` from index `i` on, `fuel` bounding the number
of rounds left: `true` when `match` is still set at the end. The loop is run
from `0` with `_name_prefix_cmpcnt` rounds, which is all it can take. The
comparison is given the table only: a component longer than the rest of the
table makes the code read the statics behind it, whose values at that time
the model does not know, and the model reports a difference. -/
def match_loop (st : ProducerState) (pfx : ccnl_prefix_s) : Nat → Nat → Bool
  | 0, _ => true
  | fuel + 1, i =>
    if i < st._name_prefix_cmpcnt then
      if memcmp (pfx.comp.getD i []) (st._name_prefix.drop (CMPLEN * i)) (pfx.complen i) = 0 then
        match_loop st pfx fuel (i + 1)
      else false
    else true

/-- `_producer_func(relay, from, pkt)`. -/
def _producer_func (env : Ccnl) (st : ProducerState) (pkt : ccnl_pkt_s) :
    Option ccnl_content_s × List ProducerEvent :=
  if pkt.pfx.compcnt = st._name_prefix_cmpcnt + SUFFIX_CNT then
    if match_loop st pkt.pfx st._name_prefix_cmpcnt 0 then _cont_and_cache env st pkt
    else (none, [])
  else (none, [])

/-- State of the `strtok` loop of `start_producer`. -/
structure CopyLoop where
  /-- Whether the loop ran to the end, `false` for a `return -1` inside it. -/
  completed : Bool
  i : Nat
  tbl : List Nat
  log : List ProducerEvent
deriving DecidableEq, Repr

/-- The `while ((cmp = strtok(prefix_str, "/")))` loop of `start_producer` over
the tokens still to come. -/
def copy_loop : List (List Nat) → Nat → List Nat → List ProducerEvent → CopyLoop
  | [], i, tbl, log => ⟨true, i, tbl, log⟩
  | cmp :: rest, i, tbl, log =>
    if strlen cmp > CMPLEN then ⟨false, i, tbl, log⟩
    else
      let tbl1 := store tbl (CMPLEN * i) (cmp ++ [0])
      let log1 := log ++ [ProducerEvent.strcpy_row i (strlen cmp + 1)]
      if i + 1 > CMPCNT then ⟨false, i + 1, tbl1, log1⟩
      else copy_loop rest (i + 1) tbl1 log1

/-- The loop filling `_data` from index `i` on, `fuel` bounding the number of
rounds left. The loop is run from `0` with `data_len` rounds; it takes a
quarter of them, rounded up (`fill_loop_spec`). -/
def fill_loop (data_len : Nat) : Nat → Nat → List Nat → List Nat
  | 0, _, d => d
  | fuel + 1, i, d =>
    if i < data_len then
      if data_len - i < _data_cnt.length then
        fill_loop data_len fuel (i + _data_cnt.length) (memcpy d i _data_cnt (data_len - i))
      else
        fill_loop data_len fuel (i + _data_cnt.length) (memcpy d i _data_cnt _data_cnt.length)
    else d

/-- Result of a shell command of `producer.c`. -/
structure ProducerRun where
  ret : Int
  state : ProducerState
  log : List ProducerEvent
deriving DecidableEq, Repr

/-- `start_producer(argc, argv)`. The `strtok` loop runs on the table and the
bytes behind it as one piece of memory. -/
def start_producer (env : Ccnl) (st : ProducerState) (argv : List (List Nat)) : ProducerRun :=
  if st._name_prefix_cmpcnt ≠ 0 then ⟨-1, st, []⟩
  else if argv.length < 3 ∨ strlen (argv.getD 1 []) ≥ env.CCNL_MAX_PREFIX_SIZE ∨
      to_unsigned (atoi (argv.getD 2 [])) ≥ DATA_MAX_SIZE ∨ atoi (argv.getD 2 []) ≤ 0 then
    ⟨-1, st, []⟩
  else
    let l := copy_loop (strtok_all (argv.getD 1 [])) 0 (st._name_prefix ++ st.behind) []
    if l.completed then
      let data_len := (atoi (argv.getD 2 [])).toNat
      ⟨0,
       { _name_prefix := l.tbl.take (CMPCNT * CMPLEN)
         behind := l.tbl.drop (CMPCNT * CMPLEN)
         _name_prefix_cmpcnt := l.i
         _data := fill_loop data_len data_len 0 st._data
         _data_len := data_len },
       l.log ++ [ProducerEvent.set_local_producer]⟩
    else
      ⟨-1,
       { st with
         _name_prefix := l.tbl.take (CMPCNT * CMPLEN)
         behind := l.tbl.drop (CMPCNT * CMPLEN) },
       l.log⟩

/-! ## consumer.c -/

def MAX_NAMES : Nat := 2

def REQ_URI_LEN : Nat := 32

/-- The conversion `%lu`: the decimal digits of `n`, most significant first. -/
def fmt_lu (n : Nat) : List Nat := (Nat.toDigits 10 n).map Char.toNat

/-- The conversion `%05lu`: the decimal digits, padded on the left with `0` to
a width of five; a longer number is printed in full. -/
def fmt_05lu (n : Nat) : List Nat :=
  List.replicate (5 - (fmt_lu n).length) 48 ++ fmt_lu n

/-- The string `snprintf(req_uri, size, "%s/%05lu", prefix_str, i)` leaves in
`req_uri`: the formatted text cut to `size - 1` bytes. -/
def snprintf_uri (size : Nat) (prefix_str : List Nat) (i : Nat) : List Nat :=
  (prefix_str ++ [47] ++ fmt_05lu i).take (size - 1)

/-- What a call in `consumer.c` does to the timer and to the engine. -/
inductive ConsumerEvent where
  /-- The call `evtimer_add_msg(&_evtimer, &_events[idx], sched_active_pid)`.
  The offset `EVENT_TIME(delay)` set just before, a random value, is not
  recorded. -/
  | evtimer_add_msg (idx : Nat)
  /-- The call `ccnl_send_interest` for the name parsed from `req_uri`. -/
  | send_interest (req_uri : List Nat)
deriving DecidableEq, Repr

/-- `send_static_request(prefix_str, i)`. -/
def send_static_request (prefix_str : List Nat) (i : Nat) : List ConsumerEvent :=
  [ConsumerEvent.send_interest (snprintf_uri REQ_URI_LEN prefix_str i)]

/-- `_check_names(name_num, names)`. -/
def _check_names (name_num : Nat) (names : List (List Nat)) : Bool :=
  if name_num > MAX_NAMES then true
  else (List.range name_num).any fun i => strlen (names.getD i []) > REQ_URI_LEN - 5 - 2

/-- The request loop of `send_get` from index `i` on, `fuel` bounding the number
of rounds left; it is run from `0` with `bound` rounds. `msgs k` is the
`content.value` of the message the `k`-th `msg_receive` returns. -/
def request_loop (msgs : Nat → Nat) (argv : List (List Nat)) (bound : Nat) :
    Nat → Nat → List ConsumerEvent
  | 0, _ => []
  | fuel + 1, i =>
    if i < bound then
      send_static_request (argv.getD (3 + i % (argv.length - 3)) []) i ++
        ConsumerEvent.evtimer_add_msg (msgs i) :: request_loop msgs argv bound fuel (i + 1)
    else []

/-- `send_get(argc, argv)`: the value returned and the calls made. -/
def send_get (msgs : Nat → Nat) (argv : List (List Nat)) : Int × List ConsumerEvent :=
  if argv.length < 4 ∨ _check_names (argv.length - 3) (argv.drop 3) = true then (-1, [])
  else
    let delay := to_unsigned (atoi (argv.getD 1 []))
    let count := to_unsigned (atoi (argv.getD 2 []))
    if delay = 0 ∨ count = 0 then (-1, [])
    else
      let bound := (count * MAX_NAMES) % 4294967296
      (0, (List.range MAX_NAMES).map ConsumerEvent.evtimer_add_msg ++
            request_loop msgs argv bound bound 0)

/-! ## routes.c -/

/-- `struct ccnl_face_s`: the link-layer peer the face stands for and its flags. -/
structure ccnl_face_s where
  peer : List Nat
  flags : Nat
deriving DecidableEq, Repr

/-- The constants and functions of CCN-lite and GNRC used by `routes.c`. -/
structure RouteEnv where
  /-- The `CCNL_FACE_FLAGS_STATIC` constant of the engine. -/
  CCNL_FACE_FLAGS_STATIC : Nat
  /-- The call `gnrc_netif_addr_from_str(str, nh_addr)`: the bytes written to
  `nh_addr`, their number being the value returned (`0` for a parse error). -/
  gnrc_netif_addr_from_str : List Nat → List Nat
  /-- The call `ccnl_URItoPrefix(uri, CCNL_SUITE_NDNTLV, NULL)`. -/
  ccnl_URItoPrefix : List Nat → Option ccnl_prefix_s
  /-- The call `ccnl_get_face_or_create` for a link-layer address. -/
  ccnl_get_face_or_create : List Nat → Option ccnl_face_s

/-- How a call ends. -/
inductive Outcome where
  /-- The function returns this value. -/
  | returned (v : Int)
  /-- The function writes through a `NULL` pointer and returns nothing. -/
  | null_dereference
deriving DecidableEq, Repr

/-- Result of a function of `routes.c`: how it ended and the entries it passed
to `ccnl_fib_add_entry`. -/
structure RouteRun where
  outcome : Outcome
  fib_add_entry : List (ccnl_prefix_s × ccnl_face_s)
deriving DecidableEq, Repr

/-- `_intern_face_get(addr, addr_len)`. -/
def _intern_face_get (env : RouteEnv) (addr : List Nat) : Option ccnl_face_s :=
  env.ccnl_get_face_or_create addr

/-- `_install_route(prefix_str, nh_addr, nh_addr_len)`. -/
def _install_route (env : RouteEnv) (prefix_str : List Nat) (nh_addr : List Nat) : RouteRun :=
  match env.ccnl_URItoPrefix prefix_str with
  | none => ⟨Outcome.returned (-1), []⟩
  | some pfx =>
    match _intern_face_get env nh_addr with
    | none => ⟨Outcome.null_dereference, []⟩
    | some fibface =>
      ⟨Outcome.returned 0,
        [(pfx, { fibface with flags := fibface.flags ||| env.CCNL_FACE_FLAGS_STATIC })]⟩

/-- `set_route(argc, argv)`. -/
def set_route (env : RouteEnv) (argv : List (List Nat)) : RouteRun :=
  if argv.length < 3 then ⟨Outcome.returned (-1), []⟩
  else
    let nh_addr := env.gnrc_netif_addr_from_str (argv.getD 2 [])
    if nh_addr.length = 0 then ⟨Outcome.returned (-1), []⟩
    else _install_route env (argv.getD 1 []) nh_addr

/-! ## Stand-ins for the engine, used to evaluate the application on examples -/

/-- A name as bytes: the number of components, then each component after its
length. -/
def encode_name (comps : List (List Nat)) : List Nat :=
  comps.length :: (comps.map fun c => c.length :: c).flatten

/-- Reads `n` length-prefixed components. -/
def decode_comps : Nat → List Nat → List (List Nat)
  | 0, _ => []
  | _ + 1, [] => []
  | n + 1, len :: r => r.take len :: decode_comps n (r.drop len)

/-- An engine with a toy codec: a Data packet is the type byte `6`, the encoded
name and the payload. -/
def Ccnl.toy : Ccnl :=
  { CCNL_MAX_PREFIX_SIZE := 50
    NDN_TLV_Data := 6
    ccnl_ndntlv_prependContent := fun pfx payload => 6 :: (encode_name pfx.comp ++ payload)
    ccnl_ndntlv_dehead := fun b =>
      match b with
      | [] => none
      | typ :: r => some (typ, r)
    ccnl_ndntlv_bytes2pkt := fun _ _ data =>
      match data with
      | [] => none
      | n :: r => some ⟨⟨decode_comps n r⟩⟩
    ccnl_content_new := fun pk => pk.map fun p => ⟨p⟩ }

/-- The toy engine with a header decoder that rejects every packet. -/
def Ccnl.toy_bad_header : Ccnl :=
  { Ccnl.toy with ccnl_ndntlv_dehead := fun _ => none }

/-- An environment for `routes.c` whose face table is full:
`ccnl_get_face_or_create` yields `NULL`; a next hop parses when it is not empty
and a URI converts when it starts with `/`. -/
def RouteEnv.no_face : RouteEnv :=
  { CCNL_FACE_FLAGS_STATIC := 1
    gnrc_netif_addr_from_str := fun s => if s = [] then [] else [0xde, 0xad]
    ccnl_URItoPrefix := fun uri =>
      match uri with
      | 47 :: _ => some ⟨strtok_all uri⟩
      | _ => none
    ccnl_get_face_or_create := fun _ => none }

/-! ## Lemmas on the C library model -/

theorem strtok_aux_tokens (s : List Nat) : ∀ (cur : List Nat), 47 ∉ cur →
    ∀ t ∈ strtok_aux s cur, t ≠ [] ∧ 47 ∉ t := by
  induction s with
  | nil =>
    intro cur hcur t ht
    simp only [strtok_aux] at ht
    split at ht
    · simp at ht
    · next hne =>
      rw [List.mem_singleton] at ht
      subst ht
      exact ⟨by simpa using hne, by simpa using hcur⟩
  | cons c cs ih =>
    intro cur hcur t ht
    simp only [strtok_aux] at ht
    split at ht
    · split at ht
      · exact ih [] (List.not_mem_nil _) t ht
      · next hne =>
        rcases List.mem_cons.mp ht with rfl | ht
        · exact ⟨by simpa using hne, by simpa using hcur⟩
        · exact ih [] (List.not_mem_nil _) t ht
    · next hc =>
      refine ih (c :: cur) ?_ t ht
      intro hm
      rcases List.mem_cons.mp hm with h | h
      · exact hc h.symm
      · exact hcur h

/-- Every token `strtok` returns is non-empty and holds no `/`. -/
theorem strtok_all_tokens (s : List Nat) : ∀ t ∈ strtok_all s, t ≠ [] ∧ 47 ∉ t :=
  strtok_aux_tokens s [] (List.not_mem_nil _)

theorem strtok_all_examples :
    strtok_all (cstr "/a/b") = [cstr "a", cstr "b"] ∧
    strtok_all (cstr "a//bc/") = [cstr "a", cstr "bc"] ∧
    strtok_all (cstr "/") = [] ∧ strtok_all (cstr "") = [] := by
  decide

theorem atoi_examples :
    atoi (cstr "10") = 10 ∧ atoi (cstr " -12x") = -12 ∧ atoi (cstr "+7") = 7 ∧
    atoi (cstr "abc") = 0 ∧ atoi (cstr "4294967296") = INT_MAX ∧
    to_unsigned (atoi (cstr "-1")) = 4294967295 := by
  decide

/-! ## Lemmas on the memory operations -/

theorem store_length (bs : List Nat) : ∀ (mem : List Nat) (off : Nat),
    (store mem off bs).length = mem.length := by
  induction bs with
  | nil => intro mem off; rfl
  | cons b bs ih => intro mem off; simp [store, ih]

theorem store_getElem?_lt (bs : List Nat) : ∀ (mem : List Nat) (off m : Nat), m < off →
    (store mem off bs)[m]? = mem[m]? := by
  induction bs with
  | nil => intro mem off m _; rfl
  | cons b bs ih =>
    intro mem off m h
    simp only [store]
    rw [ih _ _ _ (by omega), List.getElem?_set_ne (by omega)]

theorem store_getElem?_ge (bs : List Nat) : ∀ (mem : List Nat) (off m : Nat),
    off + bs.length ≤ m → (store mem off bs)[m]? = mem[m]? := by
  induction bs with
  | nil => intro mem off m _; rfl
  | cons b bs ih =>
    intro mem off m h
    simp only [store, List.length_cons] at h ⊢
    rw [ih _ _ _ (by omega), List.getElem?_set_ne (by omega)]

theorem store_getElem?_in (bs : List Nat) : ∀ (mem : List Nat) (off k : Nat),
    k < bs.length → off + k < mem.length → (store mem off bs)[off + k]? = bs[k]? := by
  induction bs with
  | nil => intro mem off k h; simp at h
  | cons b bs ih =>
    intro mem off k h hk
    simp only [store]
    cases k with
    | zero =>
      rw [store_getElem?_lt _ _ _ _ (by omega)]
      simp only [Nat.add_zero, List.getElem?_cons_zero]
      rw [List.getElem?_set_self (by simpa using hk)]
    | succ k =>
      have := ih (mem.set off b) (off + 1) k (by simpa using h) (by simp; omega)
      rw [show off + (k + 1) = off + 1 + k by omega, this]
      simp

theorem memcmp_eq_zero_of_agree : ∀ (p q : List Nat),
    (∀ k, k < p.length → q[k]? = p[k]?) → memcmp p q p.length = 0 := by
  intro p
  induction p with
  | nil => intro q _; rfl
  | cons a p ih =>
    intro q h
    cases q with
    | nil => have := h 0 (by simp); simp at this
    | cons b q =>
      have h0 := h 0 (by simp)
      simp only [List.getElem?_cons_zero, Option.some.injEq] at h0
      subst h0
      simp only [List.length_cons, memcmp, if_true]
      apply ih
      intro k hk
      have := h (k + 1) (by simpa using hk)
      simpa using this

/-! ## producer.c: the loops -/

theorem copy_loop_completed (ts : List (List Nat)) : ∀ (i : Nat) (tbl : List Nat)
    (log : List ProducerEvent), CMPCNT * CMPLEN ≤ tbl.length → i ≤ CMPCNT →
    (copy_loop ts i tbl log).completed = true →
    (copy_loop ts i tbl log).i = i + ts.length ∧ i + ts.length ≤ CMPCNT ∧
    (∀ t ∈ ts, t.length ≤ CMPLEN) ∧
    (copy_loop ts i tbl log).tbl.length = tbl.length ∧
    (∀ m, m < CMPLEN * i → (copy_loop ts i tbl log).tbl[m]? = tbl[m]?) ∧
    (∀ j k, (hj : j < ts.length) → k < (ts.get ⟨j, hj⟩).length →
      (copy_loop ts i tbl log).tbl[CMPLEN * (i + j) + k]? = (ts.get ⟨j, hj⟩)[k]?) := by
  induction ts with
  | nil =>
    intro i tbl log hlen hi _
    simp [copy_loop, hi]
  | cons cmp rest ih =>
    intro i tbl log hlen hi hc
    simp only [copy_loop, strlen] at hc ⊢
    by_cases h1 : cmp.length > CMPLEN
    · simp [h1] at hc
    · simp only [h1, if_false] at hc ⊢
      by_cases h2 : i + 1 > CMPCNT
      · simp [h2] at hc
      · simp only [h2, if_false] at hc ⊢
        have hlen1 : (store tbl (CMPLEN * i) (cmp ++ [0])).length = tbl.length :=
          store_length _ _ _
        obtain ⟨e1, e2, e3, e4, e5, e6⟩ := ih (i + 1) _ _ (by rw [hlen1]; exact hlen)
          (by omega) hc
        rw [hlen1] at e4
        simp only [CMPLEN, CMPCNT] at *
        refine ⟨by rw [e1, List.length_cons]; omega, by rw [List.length_cons]; omega, ?_, e4, ?_, ?_⟩
        · intro t ht
          rcases List.mem_cons.mp ht with rfl | ht
          · omega
          · exact e3 t ht
        · intro m hm
          rw [e5 m (by omega), store_getElem?_lt _ _ _ _ hm]
        · intro j k hj hk
          cases j with
          | zero =>
            simp only [List.get_eq_getElem, List.getElem_cons_zero] at hk ⊢
            rw [show 10 * (i + 0) + k = 10 * i + k by omega, e5 _ (by omega),
              store_getElem?_in (cmp ++ [0]) tbl (10 * i) k (by simp; omega) (by omega),
              List.getElem?_append_left hk]
          | succ j =>
            simp only [List.get_eq_getElem, List.getElem_cons_succ] at hk ⊢
            have := e6 j k (by simpa using hj) (by simpa using hk)
            rw [show 10 * (i + (j + 1)) + k = 10 * (i + 1 + j) + k by omega, this]
            simp

theorem match_loop_of_rows (st : ProducerState) (pfx : ccnl_prefix_s) :
    ∀ (fuel i : Nat),
    (∀ j, i ≤ j → j < st._name_prefix_cmpcnt → ∀ k, k < (pfx.comp.getD j []).length →
      st._name_prefix[CMPLEN * j + k]? = (pfx.comp.getD j [])[k]?) →
    match_loop st pfx fuel i = true := by
  intro fuel
  induction fuel with
  | zero => intro i _; rfl
  | succ fuel ih =>
    intro i h
    simp only [match_loop]
    by_cases hi : i < st._name_prefix_cmpcnt
    · have hm : memcmp (pfx.comp.getD i []) (st._name_prefix.drop (CMPLEN * i)) (pfx.complen i) = 0 := by
        unfold ccnl_prefix_s.complen
        apply memcmp_eq_zero_of_agree
        intro k hk
        rw [List.getElem?_drop]
        exact h i (Nat.le_refl _) hi k hk
      simp only [hi, hm, if_true]
      exact ih (i + 1) (fun j hj => h j (by omega))
    · simp [hi]

theorem fill_loop_spec (n : Nat) : ∀ (fuel i : Nat) (d : List Nat),
    i % 4 = 0 → n ≤ d.length → n ≤ i + 4 * fuel →
    (fill_loop n fuel i d).length = d.length ∧
    (∀ m, m < i → (fill_loop n fuel i d)[m]? = d[m]?) ∧
    (∀ m, i ≤ m → m < n → (fill_loop n fuel i d)[m]? = _data_cnt[m % 4]?) ∧
    (∀ m, n ≤ m → (fill_loop n fuel i d)[m]? = d[m]?) := by
  intro fuel
  induction fuel with
  | zero =>
    intro i d _ _ hf
    simp only [fill_loop]
    exact ⟨trivial, fun _ _ => trivial, fun m h1 h2 => by omega, fun _ _ => trivial⟩
  | succ fuel ih =>
    intro i d hi hd hf
    simp only [fill_loop]
    by_cases hin : i < n
    · have hcnt : _data_cnt.length = 4 := rfl
      simp only [hin, if_true, hcnt]
      -- both branches copy `min 4 (n - i)` bytes of the pattern
      have key : ∀ k, k ≤ 4 → k ≤ n - i → (k < 4 → k = n - i) →
          (fill_loop n fuel (i + 4) (memcpy d i _data_cnt k)).length = d.length ∧
          (∀ m, m < i → (fill_loop n fuel (i + 4) (memcpy d i _data_cnt k))[m]? = d[m]?) ∧
          (∀ m, i ≤ m → m < n →
            (fill_loop n fuel (i + 4) (memcpy d i _data_cnt k))[m]? = _data_cnt[m % 4]?) ∧
          (∀ m, n ≤ m → (fill_loop n fuel (i + 4) (memcpy d i _data_cnt k))[m]? = d[m]?) := by
        intro k hk4 hkn hkeq
        have hl : (memcpy d i _data_cnt k).length = d.length := store_length _ _ _
        have htl : (_data_cnt.take k).length = k := by
          rw [List.length_take, hcnt]; omega
        obtain ⟨e1, e2, e3, e4⟩ := ih (i + 4) (memcpy d i _data_cnt k) (by omega)
          (by rw [hl]; exact hd) (by omega)
        refine ⟨by rw [e1, hl], ?_, ?_, ?_⟩
        · intro m hm
          rw [e2 m (by omega)]
          exact store_getElem?_lt _ _ _ _ hm
        · intro m hm1 hm2
          by_cases hm : m < i + 4
          · rw [e2 m hm]
            have hmk : m - i < k := by omega
            have := store_getElem?_in (_data_cnt.take k) d i (m - i) (by rw [htl]; exact hmk)
              (by omega)
            rw [show i + (m - i) = m by omega] at this
            unfold memcpy
            rw [this, List.getElem?_take_of_lt hmk]
            congr 1
            omega
          · exact e3 m (by omega) hm2
        · intro m hm
          rw [e4 m hm]
          exact store_getElem?_ge _ _ _ _ (by rw [htl]; omega)
      by_cases hlt : n - i < 4
      · simp only [hlt, if_true]
        exact key (n - i) (by omega) (Nat.le_refl _) (fun _ => rfl)
      · simp only [hlt, if_false]
        exact key 4 (Nat.le_refl _) (by omega) (fun h => by omega)
    · simp only [hin, if_false]
      exact ⟨trivial, fun _ _ => trivial, fun m h1 h2 => by omega, fun _ _ => trivial⟩

theorem atoi_range (s : List Nat) : INT_MIN ≤ atoi s ∧ atoi s ≤ INT_MAX := by
  have h0 : ∀ r : List Nat, (0 : Int) ≤ (atoi_digits r 0 : Int) := fun r => Int.ofNat_nonneg _
  unfold atoi
  split
  · next r _ =>
    have := h0 r
    refine ⟨le_max_left _ _, max_le (by decide) ?_⟩
    simp only [INT_MAX]; omega
  · next r _ =>
    have := h0 r
    refine ⟨le_min (by decide) ?_, min_le_left _ _⟩
    simp only [INT_MIN]; omega
  · next r _ _ =>
    have := h0 r
    refine ⟨le_min (by decide) ?_, min_le_left _ _⟩
    simp only [INT_MIN]; omega

/-! ## producer.c: `start_producer`, `_producer_func` and `_cont_and_cache` -/

/-- What a successful `start_producer` has done. -/
theorem start_producer_ok (env : Ccnl) (st : ProducerState) (argv : List (List Nat))
    (h : (start_producer env st argv).ret = 0) :
    st._name_prefix_cmpcnt = 0 ∧
    0 < atoi (argv.getD 2 []) ∧ atoi (argv.getD 2 []) < 1024 ∧
    (copy_loop (strtok_all (argv.getD 1 [])) 0 (st._name_prefix ++ st.behind) []).completed =
      true ∧
    start_producer env st argv =
      ⟨0,
       { _name_prefix :=
           (copy_loop (strtok_all (argv.getD 1 [])) 0 (st._name_prefix ++ st.behind) []).tbl.take
             (CMPCNT * CMPLEN)
         behind :=
           (copy_loop (strtok_all (argv.getD 1 [])) 0 (st._name_prefix ++ st.behind) []).tbl.drop
             (CMPCNT * CMPLEN)
         _name_prefix_cmpcnt :=
           (copy_loop (strtok_all (argv.getD 1 [])) 0 (st._name_prefix ++ st.behind) []).i
         _data := fill_loop (atoi (argv.getD 2 [])).toNat (atoi (argv.getD 2 [])).toNat 0 st._data
         _data_len := (atoi (argv.getD 2 [])).toNat },
       (copy_loop (strtok_all (argv.getD 1 [])) 0 (st._name_prefix ++ st.behind) []).log ++
         [ProducerEvent.set_local_producer]⟩ := by
  unfold start_producer at h ⊢
  by_cases h1 : st._name_prefix_cmpcnt ≠ 0
  · rw [if_pos h1] at h; simp at h
  · rw [if_neg h1] at h ⊢
    split at h
    · simp at h
    · next h2 =>
      rw [if_neg h2]
      simp only [not_or, not_le, not_lt, ge_iff_le] at h2
      obtain ⟨-, -, h3, h4⟩ := h2
      have hr := atoi_range (argv.getD 2 [])
      have hlt : atoi (argv.getD 2 []) < 1024 := by
        simp only [to_unsigned, DATA_MAX_SIZE, INT_MAX, INT_MIN] at h3 hr
        omega
      by_cases h5 : (copy_loop (strtok_all (argv.getD 1 [])) 0
          (st._name_prefix ++ st.behind) []).completed = true
      · simp only [h5, if_true] at h ⊢
        exact ⟨by simpa using h1, h4, hlt, trivial, trivial⟩
      · dsimp only at h
        rw [if_neg h5] at h
        simp at h

theorem copy_loop_rejects (ts : List (List Nat)) : ∀ (i : Nat) (tbl : List Nat)
    (log : List ProducerEvent), i ≤ CMPCNT →
    ((∃ c ∈ ts, CMPLEN < strlen c) ∨ CMPCNT < i + ts.length) →
    (copy_loop ts i tbl log).completed = false := by
  induction ts with
  | nil =>
    intro i tbl log hi h
    rcases h with ⟨c, hc, _⟩ | h
    · simp at hc
    · simp only [List.length_nil] at h
      omega
  | cons cmp rest ih =>
    intro i tbl log hi h
    simp only [copy_loop]
    by_cases h1 : strlen cmp > CMPLEN
    · simp [h1]
    · by_cases h2 : i + 1 > CMPCNT
      · simp [h1, h2]
      · simp only [h1, h2, if_false]
        apply ih _ _ _ (by omega)
        rcases h with ⟨c, hc, hlen⟩ | h
        · rcases List.mem_cons.mp hc with rfl | hc
          · exact absurd hlen h1
          · exact Or.inl ⟨c, hc, hlen⟩
        · right
          simp only [List.length_cons] at h
          omega

theorem copy_loop_log (ts : List (List Nat)) : ∀ (i : Nat) (tbl : List Nat)
    (log : List ProducerEvent), ∀ e ∈ (copy_loop ts i tbl log).log,
    e ∈ log ∨ ∃ row bytes, e = ProducerEvent.strcpy_row row bytes := by
  induction ts with
  | nil => intro i tbl log e he; exact Or.inl he
  | cons cmp rest ih =>
    intro i tbl log e he
    simp only [copy_loop] at he
    split at he
    · exact Or.inl he
    · have step : e ∈ log ++ [ProducerEvent.strcpy_row i (strlen cmp + 1)] →
          e ∈ log ∨ ∃ row bytes, e = ProducerEvent.strcpy_row row bytes := by
        intro hm
        rcases List.mem_append.mp hm with hm | hm
        · exact Or.inl hm
        · exact Or.inr ⟨i, strlen cmp + 1, by simpa using hm⟩
      split at he
      · exact step he
      · rcases ih _ _ _ e he with hm | hm
        · exact step hm
        · exact Or.inr hm

/-- Every `strcpy` of the loop stays within the table and the `BEHIND` bytes
that follow it, so on such a piece of memory `store` keeps every byte. -/
theorem copy_loop_reach (ts : List (List Nat)) : ∀ (i : Nat) (tbl : List Nat)
    (log : List ProducerEvent), i ≤ CMPCNT →
    ∀ row bytes, ProducerEvent.strcpy_row row bytes ∈ (copy_loop ts i tbl log).log →
    ProducerEvent.strcpy_row row bytes ∈ log ∨
      CMPLEN * row + bytes ≤ CMPCNT * CMPLEN + BEHIND := by
  induction ts with
  | nil => intro i tbl log _ row bytes he; exact Or.inl he
  | cons cmp rest ih =>
    intro i tbl log hi row bytes he
    simp only [copy_loop] at he
    split at he
    · exact Or.inl he
    · next hlen =>
      have step : ProducerEvent.strcpy_row row bytes ∈
            log ++ [ProducerEvent.strcpy_row i (strlen cmp + 1)] →
          ProducerEvent.strcpy_row row bytes ∈ log ∨
            CMPLEN * row + bytes ≤ CMPCNT * CMPLEN + BEHIND := by
        intro hm
        rcases List.mem_append.mp hm with hm | hm
        · exact Or.inl hm
        · right
          rw [List.mem_singleton] at hm
          injection hm with h1 h2
          subst h1 h2
          simp only [CMPLEN, CMPCNT, BEHIND] at hlen hi ⊢
          omega
      split at he
      · exact step he
      · next h2 =>
        rcases ih _ _ _ (by omega) row bytes he with hm | hm
        · exact step hm
        · exact Or.inr hm

theorem cont_and_cache_log_ne_nil (env : Ccnl) (st : ProducerState) (pkt : ccnl_pkt_s) :
    (_cont_and_cache env st pkt).2 ≠ [] := by
  unfold _cont_and_cache
  dsimp only
  split
  · simp
  · split
    · simp
    · split <;> simp

/-- C3: after a successful `start_producer` the registered component count is
the number of `/`-separated components of the prefix argument, and for every
Interest name made of exactly these components followed by one more component
`_producer_func` does not decline: it returns what `_cont_and_cache` returns
for the Interest, the engine calls of `_cont_and_cache` included. -/
theorem producer_func_serves_registered_name (env : Ccnl) (st : ProducerState)
    (argv : List (List Nat)) (suffix : List Nat)
    (hsz : st.sized)
    (hret : (start_producer env st argv).ret = 0) :
    (start_producer env st argv).state._name_prefix_cmpcnt =
      (strtok_all (argv.getD 1 [])).length ∧
    _producer_func env (start_producer env st argv).state
        ⟨⟨strtok_all (argv.getD 1 []) ++ [suffix]⟩⟩ =
      _cont_and_cache env (start_producer env st argv).state
        ⟨⟨strtok_all (argv.getD 1 []) ++ [suffix]⟩⟩ ∧
    (_producer_func env (start_producer env st argv).state
        ⟨⟨strtok_all (argv.getD 1 []) ++ [suffix]⟩⟩).2 ≠ [] := by
  obtain ⟨-, -, -, hc, heq⟩ := start_producer_ok env st argv hret
  obtain ⟨e1, e2, e3, -, -, e6⟩ :=
    copy_loop_completed (strtok_all (argv.getD 1 [])) 0 (st._name_prefix ++ st.behind) []
      (by rw [List.length_append, hsz.1]; exact Nat.le_add_right _ _) (Nat.zero_le _) hc
  rw [Nat.zero_add] at e1
  have hfun : _producer_func env (start_producer env st argv).state
        ⟨⟨strtok_all (argv.getD 1 []) ++ [suffix]⟩⟩ =
      _cont_and_cache env (start_producer env st argv).state
        ⟨⟨strtok_all (argv.getD 1 []) ++ [suffix]⟩⟩ := by
    rw [heq]
    unfold _producer_func
    have hcnt : (ccnl_pkt_s.mk ⟨strtok_all (argv.getD 1 []) ++ [suffix]⟩).pfx.compcnt =
        (copy_loop (strtok_all (argv.getD 1 [])) 0 (st._name_prefix ++ st.behind) []).i +
          SUFFIX_CNT := by
      show (strtok_all (argv.getD 1 []) ++ [suffix]).length = _
      rw [List.length_append, e1]
      rfl
    rw [if_pos hcnt, if_pos]
    apply match_loop_of_rows
    intro j _ hj k hk
    dsimp only at hj hk ⊢
    rw [e1] at hj
    have hget : (strtok_all (argv.getD 1 []) ++ [suffix]).getD j [] =
        (strtok_all (argv.getD 1 [])).get ⟨j, hj⟩ := by
      rw [List.getD_eq_getElem?_getD, List.getElem?_append_left hj, List.getElem?_eq_getElem hj]
      rfl
    rw [hget] at hk ⊢
    have := e6 j k hj hk
    rw [Nat.zero_add] at this
    have hrow : ((strtok_all (argv.getD 1 [])).get ⟨j, hj⟩).length ≤ CMPLEN :=
      e3 _ (List.get_mem _ _ _)
    rw [List.getElem?_take_of_lt, this]
    simp only [CMPCNT, CMPLEN] at e2 hrow ⊢
    omega
  refine ⟨by rw [heq]; exact e1, hfun, ?_⟩
  rw [hfun]
  exact cont_and_cache_log_ne_nil _ _ _

theorem ProducerState.init_sized : ProducerState.init.sized :=
  ⟨List.length_replicate _ _, List.length_replicate _ _⟩

theorem producer_func_serves_registered_name_witness :
    ProducerState.init.sized ∧
    (start_producer Ccnl.toy ProducerState.init
      [cstr "produce", cstr "/a/b", cstr "10"]).ret = 0 ∧
    strtok_all (cstr "/a/b") ++ [cstr "00001"] = [cstr "a", cstr "b", cstr "00001"] ∧
    _producer_func Ccnl.toy (start_producer Ccnl.toy ProducerState.init
        [cstr "produce", cstr "/a/b", cstr "10"]).state
        ⟨⟨strtok_all (cstr "/a/b") ++ [cstr "00001"]⟩⟩ =
      _cont_and_cache Ccnl.toy (start_producer Ccnl.toy ProducerState.init
        [cstr "produce", cstr "/a/b", cstr "10"]).state
        ⟨⟨strtok_all (cstr "/a/b") ++ [cstr "00001"]⟩⟩ :=
  ⟨ProducerState.init_sized, by decide, by decide,
    (producer_func_serves_registered_name Ccnl.toy ProducerState.init
      [cstr "produce", cstr "/a/b", cstr "10"] (cstr "00001") ProducerState.init_sized
      (by decide)).2.1⟩

/-- C5: for every payload length `n` with `1 ≤ n ≤ 1023`, when `start_producer`
succeeds with a data length argument that parses to `n`, `_data_len` is `n`,
byte `i` of `_data` is byte `i mod 4` of the pattern `0x52 0x13 0xf6 0xb5` for
every `i < n`, and every byte of `_data` at an index `≥ n` is as it was before
the call. -/
theorem start_producer_fills_payload (env : Ccnl) (st : ProducerState)
    (argv : List (List Nat)) (n : Nat)
    (hn1 : 1 ≤ n) (hn2 : n ≤ 1023)
    (hsz : st.sized)
    (harg : atoi (argv.getD 2 []) = (n : Int))
    (hret : (start_producer env st argv).ret = 0) :
    (start_producer env st argv).state._data_len = n ∧
    (start_producer env st argv).state._data.length = DATA_MAX_SIZE ∧
    (∀ i, i < n → (start_producer env st argv).state._data[i]? =
      some ([0x52, 0x13, 0xf6, 0xb5].getD (i % 4) 0)) ∧
    (∀ j, n ≤ j → (start_producer env st argv).state._data[j]? = st._data[j]?) := by
  obtain ⟨-, -, -, -, heq⟩ := start_producer_ok env st argv hret
  have hd : st._data.length = 1024 := hsz.2
  obtain ⟨e1, -, e3, e4⟩ := fill_loop_spec n n 0 st._data rfl (by omega) (by omega)
  rw [heq, harg]
  simp only [Int.toNat_ofNat]
  refine ⟨trivial, by rw [e1]; exact hsz.2, ?_, e4⟩
  intro i hi
  rw [e3 i (Nat.zero_le _) hi]
  have h4 : i % 4 < 4 := Nat.mod_lt _ (by decide)
  have : ∀ r, r < 4 → _data_cnt[r]? = some ([0x52, 0x13, 0xf6, 0xb5].getD r 0) := by decide
  exact this _ h4

theorem start_producer_fills_payload_witness :
    ProducerState.init.sized ∧
    atoi (cstr "10") = ((10 : Nat) : Int) ∧
    (start_producer Ccnl.toy ProducerState.init
      [cstr "produce", cstr "/a/b", cstr "10"]).ret = 0 ∧
    (start_producer Ccnl.toy ProducerState.init
      [cstr "produce", cstr "/a/b", cstr "10"]).state._data_len = 10 :=
  ⟨ProducerState.init_sized, by decide, by decide,
    (start_producer_fills_payload Ccnl.toy ProducerState.init
      [cstr "produce", cstr "/a/b", cstr "10"] 10 (by decide) (by decide)
      ProducerState.init_sized (by decide) (by decide)).1⟩

/-- A data length argument that parses to a value `≤ 0` or `≥ DATA_MAX_SIZE`
makes `start_producer` return `-1` before it touches any static. -/
theorem start_producer_rejects_data_len (env : Ccnl) (st : ProducerState)
    (argv : List (List Nat))
    (h : atoi (argv.getD 2 []) ≤ 0 ∨ (DATA_MAX_SIZE : Int) ≤ atoi (argv.getD 2 [])) :
    start_producer env st argv = ⟨-1, st, []⟩ := by
  unfold start_producer
  by_cases h1 : st._name_prefix_cmpcnt ≠ 0
  · rw [if_pos h1]
  · rw [if_neg h1, if_pos]
    have hr := atoi_range (argv.getD 2 [])
    rcases h with h | h
    · exact Or.inr (Or.inr (Or.inr h))
    · refine Or.inr (Or.inr (Or.inl ?_))
      simp only [to_unsigned, DATA_MAX_SIZE, INT_MAX, INT_MIN, ge_iff_le] at h hr ⊢
      omega

/-- A prefix with a component longer than `CMPLEN` bytes or with more than
`CMPCNT` components makes `start_producer` return `-1` without a call of
`ccnl_set_local_producer`. What the call has stored by then is not covered. -/
theorem start_producer_rejects_prefix (env : Ccnl) (st : ProducerState)
    (argv : List (List Nat))
    (h : (∃ c ∈ strtok_all (argv.getD 1 []), CMPLEN < strlen c) ∨
      CMPCNT < (strtok_all (argv.getD 1 [])).length) :
    (start_producer env st argv).ret = -1 ∧
    ProducerEvent.set_local_producer ∉ (start_producer env st argv).log := by
  unfold start_producer
  by_cases h1 : st._name_prefix_cmpcnt ≠ 0
  · rw [if_pos h1]
    exact ⟨rfl, List.not_mem_nil _⟩
  · rw [if_neg h1]
    split
    · exact ⟨rfl, List.not_mem_nil _⟩
    · have hts : (∃ c ∈ strtok_all (argv.getD 1 []), CMPLEN < strlen c) ∨
          CMPCNT < 0 + (strtok_all (argv.getD 1 [])).length := by
        rcases h with h | h
        · exact Or.inl h
        · right; omega
      have hc := copy_loop_rejects (strtok_all (argv.getD 1 [])) 0
        (st._name_prefix ++ st.behind) [] (Nat.zero_le _) hts
      dsimp only
      rw [hc]
      refine ⟨rfl, ?_⟩
      intro hm
      rcases copy_loop_log _ _ _ _ _ hm with hm | ⟨r, b, hm⟩
      · exact List.not_mem_nil _ hm
      · exact ProducerEvent.noConfusion hm

/-- C8: whenever `_cont_and_cache` returns a content object, that object is the
one and only object the call passed to `ccnl_content_add2cache`; and whenever
`ccnl_ndntlv_dehead` fails on the freshly encoded packet or reads a type other
than `NDN_TLV_Data`, `_cont_and_cache` returns `NULL` and passes nothing to
`ccnl_content_add2cache`. -/
theorem cont_and_cache_caches_what_it_returns (env : Ccnl) (st : ProducerState)
    (pkt : ccnl_pkt_s) :
    (∀ c, (_cont_and_cache env st pkt).1 = some c →
      cache_insertions (_cont_and_cache env st pkt).2 = [c]) ∧
    ((env.ccnl_ndntlv_dehead
          (env.ccnl_ndntlv_prependContent pkt.pfx (st._data.take st._data_len)) = none ∨
      ∃ typ data, env.ccnl_ndntlv_dehead
          (env.ccnl_ndntlv_prependContent pkt.pfx (st._data.take st._data_len)) =
            some (typ, data) ∧ typ ≠ env.NDN_TLV_Data) →
      (_cont_and_cache env st pkt).1 = none ∧
      cache_insertions (_cont_and_cache env st pkt).2 = []) := by
  unfold _cont_and_cache
  dsimp only
  generalize env.ccnl_ndntlv_prependContent pkt.pfx (st._data.take st._data_len) = olddata
  cases hd : env.ccnl_ndntlv_dehead olddata with
  | none => simp [cache_insertions]
  | some td =>
    obtain ⟨typ, data⟩ := td
    by_cases ht : typ = env.NDN_TLV_Data
    · subst ht
      simp only [ne_eq, not_true_eq_false, if_false]
      cases hn : env.ccnl_content_new
          (env.ccnl_ndntlv_bytes2pkt env.NDN_TLV_Data olddata data) <;>
        simp [cache_insertions]
    · simp [ht, cache_insertions]

theorem cont_and_cache_caches_what_it_returns_witness :
    cache_insertions (_cont_and_cache Ccnl.toy ProducerState.init
        ⟨⟨[cstr "a", cstr "b", cstr "00001"]⟩⟩).2 =
      [⟨⟨⟨[cstr "a", cstr "b", cstr "00001"]⟩⟩⟩] ∧
    ((_cont_and_cache Ccnl.toy_bad_header ProducerState.init
        ⟨⟨[cstr "a", cstr "b", cstr "00001"]⟩⟩).1 = none ∧
      cache_insertions (_cont_and_cache Ccnl.toy_bad_header ProducerState.init
        ⟨⟨[cstr "a", cstr "b", cstr "00001"]⟩⟩).2 = []) :=
  ⟨(cont_and_cache_caches_what_it_returns Ccnl.toy ProducerState.init
      ⟨⟨[cstr "a", cstr "b", cstr "00001"]⟩⟩).1 _ (by decide),
    (cont_and_cache_caches_what_it_returns Ccnl.toy_bad_header ProducerState.init
      ⟨⟨[cstr "a", cstr "b", cstr "00001"]⟩⟩).2 (Or.inl rfl)⟩

/-- C1: with the prefix `/ab` registered, the Interest `/a/00001` is served:
`_producer_func` hands it to `_cont_and_cache` and returns a content object,
although its first component `a` differs in length from the registered
component `ab`. The comparison covers only the first `complen[i]` bytes of the
registered component. -/
theorem producer_func_serves_shorter_component :
    (start_producer Ccnl.toy ProducerState.init
      [cstr "produce", cstr "/ab", cstr "10"]).ret = 0 ∧
    strtok_all (cstr "/ab") = [cstr "ab"] ∧
    cstr "a" ≠ cstr "ab" ∧
    _producer_func Ccnl.toy (start_producer Ccnl.toy ProducerState.init
        [cstr "produce", cstr "/ab", cstr "10"]).state ⟨⟨[cstr "a", cstr "00001"]⟩⟩ =
      _cont_and_cache Ccnl.toy (start_producer Ccnl.toy ProducerState.init
        [cstr "produce", cstr "/ab", cstr "10"]).state ⟨⟨[cstr "a", cstr "00001"]⟩⟩ ∧
    (_producer_func Ccnl.toy (start_producer Ccnl.toy ProducerState.init
        [cstr "produce", cstr "/ab", cstr "10"]).state ⟨⟨[cstr "a", cstr "00001"]⟩⟩).1 =
      some ⟨⟨⟨[cstr "a", cstr "00001"]⟩⟩⟩ := by
  decide

theorem start_producer_again_rejected (env : Ccnl) (st : ProducerState)
    (argv : List (List Nat)) (h : st._name_prefix_cmpcnt ≠ 0) :
    start_producer env st argv = ⟨-1, st, []⟩ := by
  unfold start_producer
  rw [if_pos h]

/-- C2: `start_producer` with the prefix `/` returns `0` and leaves
`_name_prefix_cmpcnt` at `0`, so the next `start_producer`, here with the
prefix `/a`, returns `0` as well and registers over the first producer. -/
theorem start_producer_twice_after_root_prefix :
    (start_producer Ccnl.toy ProducerState.init
      [cstr "produce", cstr "/", cstr "10"]).ret = 0 ∧
    (start_producer Ccnl.toy ProducerState.init
      [cstr "produce", cstr "/", cstr "10"]).log = [ProducerEvent.set_local_producer] ∧
    (start_producer Ccnl.toy ProducerState.init
      [cstr "produce", cstr "/", cstr "10"]).state._name_prefix_cmpcnt = 0 ∧
    (start_producer Ccnl.toy
      (start_producer Ccnl.toy ProducerState.init
        [cstr "produce", cstr "/", cstr "10"]).state
      [cstr "produce", cstr "/a", cstr "10"]).ret = 0 := by
  decide

/-- C10: `start_producer` copies the fourth component of `/a/b/c/d` to row `3`
of the three-row table before it rejects the prefix, and copies the ten-byte
component of `/abcdefghij` with its NUL as `11` bytes into a row of `CMPLEN = 10`
bytes. -/
theorem start_producer_copies_out_of_bounds :
    ProducerEvent.strcpy_row 3 2 ∈ (start_producer Ccnl.toy ProducerState.init
      [cstr "produce", cstr "/a/b/c/d", cstr "10"]).log ∧
    ¬ 3 < CMPCNT ∧
    (start_producer Ccnl.toy ProducerState.init
      [cstr "produce", cstr "/abcdefghij", cstr "10"]).log =
      [ProducerEvent.strcpy_row 0 11, ProducerEvent.set_local_producer] ∧
    ¬ 11 ≤ CMPLEN := by
  decide

/-! ## consumer.c: `send_get` -/

theorem to_unsigned_atoi_eq_zero (s : List Nat) : to_unsigned (atoi s) = 0 ↔ atoi s = 0 := by
  have hr := atoi_range s
  simp only [to_unsigned, INT_MAX, INT_MIN] at hr ⊢
  omega

theorem check_names_iff (names : List (List Nat)) :
    _check_names names.length names = true ↔
      (MAX_NAMES < names.length ∨ ∃ name ∈ names, REQ_URI_LEN - 5 - 2 < strlen name) := by
  unfold _check_names
  by_cases h : names.length > MAX_NAMES
  · simp [h]
  · rw [if_neg h]
    simp only [List.any_eq_true, List.mem_range, decide_eq_true_eq]
    constructor
    · rintro ⟨i, hi, hlen⟩
      right
      refine ⟨names.getD i [], ?_, hlen⟩
      rw [List.getD_eq_getElem?_getD, List.getElem?_eq_getElem hi]
      exact List.getElem_mem _
    · rintro (hgt | ⟨name, hmem, hlen⟩)
      · exact absurd hgt h
      · obtain ⟨i, hi, rfl⟩ := List.getElem_of_mem hmem
        refine ⟨i, hi, ?_⟩
        rw [List.getD_eq_getElem?_getD, List.getElem?_eq_getElem hi]
        exact hlen

/-- C7: `send_get` returns `-1` having armed no timer and sent no Interest
exactly when fewer than one name is given (`argc < 4`), or more than `MAX_NAMES`
names are given, or some name is longer than `REQ_URI_LEN - 5 - 2 = 25` bytes,
or the delay or the count argument parses to `0`. -/
theorem send_get_rejects_iff (msgs : Nat → Nat) (argv : List (List Nat)) :
    ((send_get msgs argv).1 = -1 ∧ (send_get msgs argv).2 = []) ↔
      (argv.length < 4 ∨ MAX_NAMES < argv.length - 3 ∨
        (∃ name ∈ argv.drop 3, 25 < strlen name) ∨
        atoi (argv.getD 1 []) = 0 ∨ atoi (argv.getD 2 []) = 0) := by
  have hck := check_names_iff (argv.drop 3)
  rw [List.length_drop] at hck
  unfold send_get
  by_cases h1 : argv.length < 4 ∨ _check_names (argv.length - 3) (argv.drop 3) = true
  · rw [if_pos h1]
    simp only [and_self, true_iff]
    rcases h1 with h1 | h1
    · exact Or.inl h1
    · rcases hck.mp h1 with h | h
      · exact Or.inr (Or.inl h)
      · exact Or.inr (Or.inr (Or.inl h))
  · rw [if_neg h1]
    dsimp only
    have hz : (to_unsigned (atoi (argv.getD 1 [])) = 0 ∨ to_unsigned (atoi (argv.getD 2 [])) = 0) ↔
        (atoi (argv.getD 1 []) = 0 ∨ atoi (argv.getD 2 []) = 0) := by
      rw [to_unsigned_atoi_eq_zero, to_unsigned_atoi_eq_zero]
    by_cases h2 : atoi (argv.getD 1 []) = 0 ∨ atoi (argv.getD 2 []) = 0
    · rw [if_pos (hz.mpr h2)]
      simp only [and_self, true_iff]
      exact Or.inr (Or.inr (Or.inr h2))
    · rw [if_neg (fun h => h2 (hz.mp h))]
      constructor
      · rintro ⟨h, -⟩
        exact absurd (show (0 : Int) = -1 from h) (by decide)
      · intro h
        exfalso
        simp only [not_or] at h1
        rcases h with h | h | h | h
        · exact h1.1 h
        · exact h1.2 (hck.mpr (Or.inl h))
        · exact h1.2 (hck.mpr (Or.inr h))
        · exact h2 h

theorem request_loop_mem (msgs : Nat → Nat) (argv : List (List Nat)) (bound k : Nat)
    (hk : k < bound) : ∀ (fuel i : Nat), i ≤ k → k < i + fuel →
    ConsumerEvent.send_interest
        (snprintf_uri REQ_URI_LEN (argv.getD (3 + k % (argv.length - 3)) []) k) ∈
      request_loop msgs argv bound fuel i := by
  intro fuel
  induction fuel with
  | zero => intro i h1 h2; omega
  | succ fuel ih =>
    intro i h1 h2
    simp only [request_loop, send_static_request]
    rw [if_pos (by omega)]
    by_cases hik : i = k
    · subst hik
      simp
    · have := ih (i + 1) (by omega) (by omega)
      exact List.mem_append_right _ (List.mem_cons_of_mem _ this)

theorem send_get_accepted (msgs : Nat → Nat) (argv : List (List Nat))
    (h1 : ¬ (argv.length < 4 ∨ _check_names (argv.length - 3) (argv.drop 3) = true))
    (h2 : ¬ (to_unsigned (atoi (argv.getD 1 [])) = 0 ∨ to_unsigned (atoi (argv.getD 2 [])) = 0)) :
    send_get msgs argv =
      (0, (List.range MAX_NAMES).map ConsumerEvent.evtimer_add_msg ++
        request_loop msgs argv ((to_unsigned (atoi (argv.getD 2 [])) * MAX_NAMES) % 4294967296)
          ((to_unsigned (atoi (argv.getD 2 [])) * MAX_NAMES) % 4294967296) 0) := by
  unfold send_get
  rw [if_neg h1]
  dsimp only
  rw [if_neg h2]

theorem fmt_05lu_length (i : Nat) (hi : i < 100000) : (fmt_05lu i).length = 5 := by
  have h : (fmt_lu i).length ≤ 5 := by
    unfold fmt_lu
    rw [List.length_map]
    exact Nat.toDigitsCore_length 10 (by decide) (i + 1) i 5 (by omega) (by decide)
  unfold fmt_05lu
  rw [List.length_append, List.length_replicate]
  omega

theorem snprintf_uri_complete (name : List Nat) (i : Nat)
    (hname : strlen name ≤ REQ_URI_LEN - 5 - 2) (hi : i < 100000) :
    snprintf_uri REQ_URI_LEN name i = name ++ [47] ++ fmt_05lu i := by
  unfold snprintf_uri
  apply List.take_of_length_le
  simp only [strlen, REQ_URI_LEN] at hname ⊢
  rw [List.length_append, List.length_append, fmt_05lu_length i hi]
  simp only [List.length_singleton]
  omega

/-- C9: `consume 1 50001 /aaaaaaaaaaaaaaaaaaaaaaaa` passes the checks of
`send_get` (one name of 25 bytes, delay 1, count 50001), and its request number
`100000 < 50001 * MAX_NAMES` is sent for a URI of 31 bytes that is the
formatted text `/aaaaaaaaaaaaaaaaaaaaaaaa/100000` of 32 bytes without its last
digit: `snprintf` has cut it to fit `req_uri`. -/
theorem send_get_truncates_request_uri :
    (send_get (fun _ => 0)
      [cstr "consume", cstr "1", cstr "50001", cstr "/aaaaaaaaaaaaaaaaaaaaaaaa"]).1 = 0 ∧
    ConsumerEvent.send_interest (cstr "/aaaaaaaaaaaaaaaaaaaaaaaa/10000") ∈
      (send_get (fun _ => 0)
        [cstr "consume", cstr "1", cstr "50001", cstr "/aaaaaaaaaaaaaaaaaaaaaaaa"]).2 ∧
    cstr "/aaaaaaaaaaaaaaaaaaaaaaaa" ++ cstr "/" ++ fmt_05lu 100000 =
      cstr "/aaaaaaaaaaaaaaaaaaaaaaaa/100000" ∧
    (cstr "/aaaaaaaaaaaaaaaaaaaaaaaa/100000").length = 32 ∧
    snprintf_uri REQ_URI_LEN (cstr "/aaaaaaaaaaaaaaaaaaaaaaaa") 100000 =
      cstr "/aaaaaaaaaaaaaaaaaaaaaaaa/10000" := by
  have hacc := send_get_accepted (fun _ => 0)
    [cstr "consume", cstr "1", cstr "50001", cstr "/aaaaaaaaaaaaaaaaaaaaaaaa"]
    (by decide) (by decide)
  have hb : (to_unsigned (atoi (cstr "50001")) * MAX_NAMES) % 4294967296 = 100002 := by decide
  have hmem := request_loop_mem (fun _ => 0)
    [cstr "consume", cstr "1", cstr "50001", cstr "/aaaaaaaaaaaaaaaaaaaaaaaa"]
    100002 100000 (by decide) 100002 0 (Nat.zero_le _) (by decide)
  have huri : snprintf_uri REQ_URI_LEN (cstr "/aaaaaaaaaaaaaaaaaaaaaaaa") 100000 =
      cstr "/aaaaaaaaaaaaaaaaaaaaaaaa/10000" := by decide
  refine ⟨by rw [hacc], ?_, by decide, by decide, huri⟩
  rw [hacc]
  apply List.mem_append_right
  have harg : ([cstr "consume", cstr "1", cstr "50001",
      cstr "/aaaaaaaaaaaaaaaaaaaaaaaa"].getD
        (3 + 100000 % ([cstr "consume", cstr "1", cstr "50001",
          cstr "/aaaaaaaaaaaaaaaaaaaaaaaa"].length - 3)) []) =
      cstr "/aaaaaaaaaaaaaaaaaaaaaaaa" := by decide
  rw [harg, huri] at hmem
  exact hb ▸ hmem

/-! ## routes.c: `set_route` -/

theorem set_route_uri_failure (env : RouteEnv) (argv : List (List Nat))
    (h : env.ccnl_URItoPrefix (argv.getD 1 []) = none) :
    set_route env argv = ⟨Outcome.returned (-1), []⟩ := by
  unfold set_route
  split
  · rfl
  · dsimp only
    split
    · rfl
    · unfold _install_route
      rw [h]

theorem set_route_face_failure (env : RouteEnv) (argv : List (List Nat)) (pfx : ccnl_prefix_s)
    (hargc : 3 ≤ argv.length)
    (haddr : env.gnrc_netif_addr_from_str (argv.getD 2 []) ≠ [])
    (huri : env.ccnl_URItoPrefix (argv.getD 1 []) = some pfx)
    (hface : env.ccnl_get_face_or_create (env.gnrc_netif_addr_from_str (argv.getD 2 [])) = none) :
    set_route env argv = ⟨Outcome.null_dereference, []⟩ := by
  unfold set_route
  rw [if_neg (by omega)]
  dsimp only
  rw [if_neg (by simpa using haddr)]
  unfold _install_route _intern_face_get
  rw [huri]
  dsimp only
  rw [hface]

/-- C6: with a prefix URI that converts and a next hop that parses, a
`ccnl_get_face_or_create` that yields `NULL` does not make `set_route` return a
negative value: `_install_route` writes `fibface->flags` through the `NULL`
pointer without a check, so the call ends in a `NULL` dereference. -/
theorem set_route_face_failure_not_surfaced :
    RouteEnv.no_face.ccnl_URItoPrefix (cstr "/a") = some ⟨[cstr "a"]⟩ ∧
    RouteEnv.no_face.ccnl_get_face_or_create
      (RouteEnv.no_face.gnrc_netif_addr_from_str (cstr "01:02")) = none ∧
    set_route RouteEnv.no_face [cstr "route", cstr "/a", cstr "01:02"] =
      ⟨Outcome.null_dereference, []⟩ ∧
    ¬ ∃ v : Int, v < 0 ∧
      (set_route RouteEnv.no_face [cstr "route", cstr "/a", cstr "01:02"]).outcome =
        Outcome.returned v := by
  have h : set_route RouteEnv.no_face [cstr "route", cstr "/a", cstr "01:02"] =
      ⟨Outcome.null_dereference, []⟩ := by decide
  refine ⟨by decide, by decide, h, ?_⟩
  rintro ⟨v, -, hv⟩
  rw [h] at hv
  exact Outcome.noConfusion hv

end SFR
